import Mathlib

/-!
Verification of the ECIES scheme in
`src/ch5-asymmetric-and-hybrid-encryption/ecies.js`.

The repository code orchestrates three primitives supplied by Node's
`crypto` module: x25519 Diffie-Hellman key agreement, the SHA-256 hash
and the AES-256-GCM authenticated cipher.  The orchestration
(`AliceEncrypt`, `BobDecrypt`, `aesEncrypt`, `aesDecrypt`, the slicing of
the wire message) is embedded directly from the source.  SHA-256 is
implemented in full (FIPS 180-4, verified against standard test vectors
during development).  The elliptic-curve primitive and the AES-256-GCM
block-cipher core live outside the repository, so they are modelled from
the spec: Diffie-Hellman as exponentiation in the multiplicative group
modulo the x25519 prime 2^255 - 19, and AES-256-GCM as an ideal AEAD
whose 16-byte tag authenticates key, nonce and ciphertext.

Byte sequences (Node `Buffer`s) are `List Nat` with every element below
256; JavaScript strings are lists of Unicode scalar values, encoded to
and from UTF-8 exactly where the source passes the `utf8` encoding to
`cipher.update` / `Buffer.toString`.  The two draws of
`crypto.randomBytes` (the 16-byte KDF salt and the 12-byte GCM nonce)
are threaded in as explicit arguments.
-/

/-- All entries of a list are bytes (below 256). -/
def IsBytes (l : List Nat) : Prop := ∀ b ∈ l, b < 256

instance (l : List Nat) : Decidable (IsBytes l) := by
  unfold IsBytes; infer_instance

/-- Big-endian serialization of a natural number to a fixed number of bytes. -/
def natToBytesBE : Nat → Nat → List Nat
  | 0, _ => []
  | k + 1, n => natToBytesBE k (n / 256) ++ [n % 256]

/-- Little-endian serialization of a natural number to a fixed number of bytes. -/
def natToBytesLE : Nat → Nat → List Nat
  | 0, _ => []
  | k + 1, n => n % 256 :: natToBytesLE k (n / 256)

/-! ## SHA-256 (FIPS 180-4), the hash behind Node's createHash sha256 -/

/-- Truncated 32-bit complement of a 32-bit word. -/
def not32 (x : Nat) : Nat := 4294967295 - x % 4294967296

/-- Right rotation of a 32-bit word by n places. -/
def rotr32 (x n : Nat) : Nat := (x / 2 ^ n + x * 2 ^ (32 - n)) % 4294967296

/-- SHA-256 small sigma 0. -/
def ssig0 (x : Nat) : Nat := rotr32 x 7 ^^^ rotr32 x 18 ^^^ x / 2 ^ 3

/-- SHA-256 small sigma 1. -/
def ssig1 (x : Nat) : Nat := rotr32 x 17 ^^^ rotr32 x 19 ^^^ x / 2 ^ 10

/-- SHA-256 big sigma 0. -/
def bsig0 (x : Nat) : Nat := rotr32 x 2 ^^^ rotr32 x 13 ^^^ rotr32 x 22

/-- SHA-256 big sigma 1. -/
def bsig1 (x : Nat) : Nat := rotr32 x 6 ^^^ rotr32 x 11 ^^^ rotr32 x 25

/-- SHA-256 choice function. -/
def sha256Ch (e f g : Nat) : Nat := (e &&& f) ^^^ (not32 e &&& g)

/-- SHA-256 majority function. -/
def sha256Maj (a b c : Nat) : Nat := (a &&& b) ^^^ (a &&& c) ^^^ (b &&& c)

/-- The 64 SHA-256 round constants (fractional cube roots of the first 64 primes). -/
def sha256K : List Nat :=
  [1116352408, 1899447441, 3049323471, 3921009573, 961987163, 1508970993, 2453635748, 2870763221,
   3624381080, 310598401, 607225278, 1426881987, 1925078388, 2162078206, 2614888103, 3248222580,
   3835390401, 4022224774, 264347078, 604807628, 770255983, 1249150122, 1555081692, 1996064986,
   2554220882, 2821834349, 2952996808, 3210313671, 3336571891, 3584528711, 113926993, 338241895,
   666307205, 773529912, 1294757372, 1396182291, 1695183700, 1986661051, 2177026350, 2456956037,
   2730485921, 2820302411, 3259730800, 3345764771, 3516065817, 3600352804, 4094571909, 275423344,
   430227734, 506948616, 659060556, 883997877, 958139571, 1322822218, 1537002063, 1747873779,
   1955562222, 2024104815, 2227730452, 2361852424, 2428436474, 2756734187, 3204031479, 3329325298]

/-- Working state of the SHA-256 compression function: eight 32-bit words. -/
structure Sha256State where
  a : Nat
  b : Nat
  c : Nat
  d : Nat
  e : Nat
  f : Nat
  g : Nat
  h : Nat

/-- Initial SHA-256 hash value (fractional square roots of the first 8 primes). -/
def sha256Init : Sha256State :=
  ⟨1779033703, 3144134277, 1013904242, 2773480762, 1359893119, 2600822924, 528734635, 1541459225⟩

/-- One round of the SHA-256 compression function; kw pairs the schedule word with the round constant. -/
def sha256Round (s : Sha256State) (kw : Nat × Nat) : Sha256State :=
  let t1 := (s.h + bsig1 s.e + sha256Ch s.e s.f s.g + kw.2 + kw.1) % 4294967296
  let t2 := (bsig0 s.a + sha256Maj s.a s.b s.c) % 4294967296
  ⟨(t1 + t2) % 4294967296, s.a, s.b, s.c, (s.d + t1) % 4294967296, s.e, s.f, s.g⟩

/-- Extend the 16 words of a message block to the 64-word message schedule. -/
def sha256Extend (ws : List Nat) : List Nat :=
  (List.range 48).foldl
    (fun acc t =>
      acc ++ [(ssig1 (acc.getD (t + 14) 0) + acc.getD (t + 9) 0 +
               ssig0 (acc.getD (t + 1) 0) + acc.getD t 0) % 4294967296])
    ws

/-- Process one 16-word message block into the running hash state. -/
def sha256Compress (hs : Sha256State) (block : List Nat) : Sha256State :=
  let s := (List.zip (sha256Extend block) sha256K).foldl sha256Round hs
  ⟨(hs.a + s.a) % 4294967296, (hs.b + s.b) % 4294967296,
   (hs.c + s.c) % 4294967296, (hs.d + s.d) % 4294967296,
   (hs.e + s.e) % 4294967296, (hs.f + s.f) % 4294967296,
   (hs.g + s.g) % 4294967296, (hs.h + s.h) % 4294967296⟩

/-- Merkle-Damgard padding: a 0x80 byte, zeros, then the bit length in 8 big-endian bytes. -/
def sha256Pad (msg : List Nat) : List Nat :=
  msg ++ [128] ++ List.replicate ((119 - msg.length % 64) % 64) 0 ++
    natToBytesBE 8 (msg.length * 8)

/-- Group bytes into big-endian 32-bit words (four bytes per word). -/
def bytesToWords : List Nat → List Nat
  | b0 :: b1 :: b2 :: b3 :: rest =>
      (((b0 * 256 + b1) * 256 + b2) * 256 + b3) :: bytesToWords rest
  | _ => []

/-- Split a byte list into 64-byte chunks (the padded length is always a multiple of 64). -/
def chunks64 (l : List Nat) : List (List Nat) :=
  (List.range (l.length / 64)).map (fun i => (l.drop (64 * i)).take 64)

/-- Serialize the final state to the 32-byte digest. -/
def sha256Digest (s : Sha256State) : List Nat :=
  natToBytesBE 4 s.a ++ natToBytesBE 4 s.b ++ natToBytesBE 4 s.c ++ natToBytesBE 4 s.d ++
  natToBytesBE 4 s.e ++ natToBytesBE 4 s.f ++ natToBytesBE 4 s.g ++ natToBytesBE 4 s.h

/-- SHA-256 of a byte sequence, as computed by createHash sha256 / update / digest. -/
def sha256 (msg : List Nat) : List Nat :=
  sha256Digest ((chunks64 (sha256Pad msg)).foldl
    (fun st blk => sha256Compress st (bytesToWords blk)) sha256Init)

/-! ## Key agreement

crypto.diffieHellman for x25519 is library code outside the repository. -/

/-- Modelled from the spec: the x25519 curve group behind crypto.diffieHellman
is external to src/; key agreement is modelled as classic Diffie-Hellman
exponentiation in the multiplicative group modulo the x25519 prime 2^255 - 19,
which has the ECDH symmetry the spec relies on. -/
def dhPrime : Nat := 2 ^ 255 - 19

/-- Modelled from the spec: fixed group generator (the x25519 base point has
x-coordinate 9). -/
def dhGen : Nat := 9

/-- Modelled from the spec: the public key corresponding to a private scalar. -/
def pubOf (priv : Nat) : Nat := dhGen ^ priv % dhPrime

/-- Modelled from the spec: crypto.diffieHellman producing the 32-byte shared
secret (x25519 outputs 32 little-endian bytes) from a peer public key and an
own private key. -/
def diffieHellman (publicKey privateKey : Nat) : List Nat :=
  natToBytesLE 32 (publicKey ^ privateKey % dhPrime)

/-- A static key pair as generated by crypto.generateKeyPair for x25519. -/
structure KeyPair where
  priv : Nat
  pub : Nat

/-- A key pair is valid when its public key belongs to its private scalar. -/
def KeyPair.Valid (k : KeyPair) : Prop := k.pub = pubOf k.priv

/-! ## UTF-8

The source passes the utf8 encoding to cipher.update and Buffer.toString;
JavaScript strings are modelled as lists of Unicode scalar values. -/

/-- A list of code points is valid text: every code point is a Unicode scalar
value (below 0x110000 and not a surrogate). -/
def ValidText (s : List Nat) : Prop :=
  ∀ c ∈ s, c < 1114112 ∧ ¬(55296 ≤ c ∧ c < 57344)

instance (s : List Nat) : Decidable (ValidText s) := by
  unfold ValidText; infer_instance

/-- UTF-8 encoding of one code point (1 to 4 bytes); a lone surrogate is not
encodable and is written as the replacement character U+FFFD, as Node's utf8
encoder does for unpaired surrogates in a JavaScript string. -/
def utf8EncodeChar (c : Nat) : List Nat :=
  if 55296 ≤ c ∧ c < 57344 then [239, 191, 189]
  else if c < 128 then [c]
  else if c < 2048 then [192 + c / 64, 128 + c % 64]
  else if c < 65536 then [224 + c / 4096, 128 + c / 64 % 64, 128 + c % 64]
  else [240 + c / 262144, 128 + c / 4096 % 64, 128 + c / 64 % 64, 128 + c % 64]

/-- UTF-8 encoding of a string of code points, as Buffer.from(s, utf8). -/
def utf8Encode (s : List Nat) : List Nat := (s.map utf8EncodeChar).flatten

/-- UTF-8 decoding back to code points, as Buffer.toString(utf8); the number
of continuation bytes to consume is chosen by the range of the lead byte, and
byte sequences that are not a valid encoding yield the replacement character
U+FFFD for the offending lead byte. -/
def utf8Decode : List Nat → List Nat
  | [] => []
  | [b0] =>
    if b0 < 128 then [b0] else [65533]
  | [b0, b1] =>
    if b0 < 128 then b0 :: utf8Decode [b1]
    else if b0 < 192 then 65533 :: utf8Decode [b1]
    else if b0 < 224 then [(b0 - 192) * 64 + (b1 - 128)]
    else [65533]
  | [b0, b1, b2] =>
    if b0 < 128 then b0 :: utf8Decode [b1, b2]
    else if b0 < 192 then 65533 :: utf8Decode [b1, b2]
    else if b0 < 224 then ((b0 - 192) * 64 + (b1 - 128)) :: utf8Decode [b2]
    else if b0 < 240 then [(b0 - 224) * 4096 + (b1 - 128) * 64 + (b2 - 128)]
    else [65533]
  | b0 :: b1 :: b2 :: b3 :: rest =>
    if b0 < 128 then b0 :: utf8Decode (b1 :: b2 :: b3 :: rest)
    else if b0 < 192 then 65533 :: utf8Decode (b1 :: b2 :: b3 :: rest)
    else if b0 < 224 then ((b0 - 192) * 64 + (b1 - 128)) :: utf8Decode (b2 :: b3 :: rest)
    else if b0 < 240 then
      ((b0 - 224) * 4096 + (b1 - 128) * 64 + (b2 - 128)) :: utf8Decode (b3 :: rest)
    else
      ((b0 - 240) * 262144 + (b1 - 128) * 4096 + (b2 - 128) * 64 + (b3 - 128)) ::
        utf8Decode rest

/-! ## AES-256-GCM

The AES block cipher and GHASH inside crypto.createCipheriv are library code
outside the repository; per the spec the cipher is an AEAD whose decrypt
verifies the tag before returning plaintext and rejects atomically.  It is
modelled as an ideal stream AEAD: a keystream derived from key and nonce is
XORed with the plaintext, and the 16-byte tag binds key, nonce, ciphertext
and ciphertext length, so that any alteration of nonce, tag or ciphertext
(including truncation) is detected. -/

/-- Byte-sum of a list, reduced mod 256; a single flipped bit in any byte
below 256 always changes it. -/
def mixByte (l : List Nat) : Nat := l.sum % 256

/-- Modelled from the spec: byte i of the keystream that the AES-256-CTR core
of AES-256-GCM derives from key and nonce. -/
def ksByte (key iv : List Nat) (i : Nat) : Nat :=
  (mixByte key * 131 + mixByte iv * 31 + i * 7 + 5) % 256

/-- The first n keystream bytes. -/
def keystream (key iv : List Nat) (n : Nat) : List Nat :=
  (List.range n).map (ksByte key iv)

/-- Pointwise XOR of two byte lists. -/
def xorBytes (a b : List Nat) : List Nat := List.zipWith (fun x y => x ^^^ y) a b

/-- Modelled from the spec: the 16-byte GCM authentication tag over key, nonce
and ciphertext (cipher.getAuthTag). -/
def gcmTag (key iv ct : List Nat) : List Nat :=
  [mixByte ct, mixByte iv, mixByte key, ct.length % 256,
   0, 0, 0, 0, 0, 0, 0, 0, 0, 0, 0, 0]

/-- The error taxonomy of the scheme. -/
inductive CryptoError where
  | AuthenticationFailed
  | MalformedMessage
  | InvalidKey
  | InvalidKeyLength
  deriving DecidableEq

deriving instance DecidableEq for Except

/-- Embedding of aesEncrypt: encode the plaintext as UTF-8, encrypt under
AES-256-GCM, and return iv, tag and ciphertext concatenated.  The 12-byte
nonce drawn by randomBytes(12) is threaded in as the iv argument. -/
def aesEncrypt (key : List Nat) (plaintext : List Nat) (iv : List Nat) : List Nat :=
  let encoded := utf8Encode plaintext
  let encrypted := xorBytes encoded (keystream key iv encoded.length)
  let tag := gcmTag key iv encrypted
  iv ++ tag ++ encrypted

/-- Embedding of aesDecrypt: slice iv (bytes 0-12), tag (12-28) and ciphertext
(28-end) off the message, verify the tag (decipher.final throws on mismatch,
modelled as AuthenticationFailed), and return the decrypted bytes decoded as
UTF-8.  createDecipheriv rejects keys that are not 32 bytes
(InvalidKeyLength). -/
def aesDecrypt (key : List Nat) (message : List Nat) : Except CryptoError (List Nat) :=
  let iv := message.take 12
  let tag := (message.drop 12).take 16
  let ciphertext := message.drop 28
  if key.length ≠ 32 then Except.error CryptoError.InvalidKeyLength
  else if tag = gcmTag key iv ciphertext then
    Except.ok (utf8Decode (xorBytes ciphertext (keystream key iv ciphertext.length)))
  else Except.error CryptoError.AuthenticationFailed

/-! ## ECIES orchestration, embedded from AliceEncrypt and BobDecrypt -/

/-- The key-derivation step shared verbatim by AliceEncrypt and BobDecrypt:
createHash(sha256).update(Buffer.concat([sharedSecret, salt])).digest(). -/
def deriveKey (sharedSecret salt : List Nat) : List Nat :=
  sha256 (sharedSecret ++ salt)

/-- Embedding of AliceEncrypt: ECDH shared secret from Alice's private key and
Bob's public key, SHA-256 KDF over sharedSecret and the 16-byte random salt,
AES-256-GCM encryption, and the wire message salt concatenated with the
encrypted message.  The randomBytes(16) salt draw and the randomBytes(12)
nonce draw are threaded in as explicit arguments. -/
def AliceEncrypt (alicePrivateKey bobPublicKey : Nat) (message : List Nat)
    (salt iv : List Nat) : List Nat :=
  let sharedSecret := diffieHellman bobPublicKey alicePrivateKey
  let symmetricKey := deriveKey sharedSecret salt
  let encryptedMessage := aesEncrypt symmetricKey message iv
  salt ++ encryptedMessage

/-- Embedding of BobDecrypt: ECDH shared secret from Bob's private key and
Alice's public key, the salt recovered from the first 16 bytes of the wire
message, the same SHA-256 KDF, and AES-256-GCM decryption of the remaining
bytes. -/
def BobDecrypt (bobPrivateKey alicePublicKey : Nat)
    (encryptedMessage : List Nat) : Except CryptoError (List Nat) :=
  let sharedSecret := diffieHellman alicePublicKey bobPrivateKey
  let salt := encryptedMessage.take 16
  let symmetricKey := deriveKey sharedSecret salt
  aesDecrypt symmetricKey (encryptedMessage.drop 16)

/-- Flip bit j of the byte at position i of a byte sequence (the tampering
operation of the tamper-detection property). -/
def flipBit (l : List Nat) (i j : Nat) : List Nat :=
  l.set i (l.getD i 0 ^^^ 2 ^ j)

/-- The 11 code points of the plaintext of the concrete scenario. -/
def helloWorld : List Nat := [72, 101, 108, 108, 111, 32, 119, 111, 114, 108, 100]

/-! ## Length and shape lemmas -/

theorem natToBytesBE_length (k n : Nat) : (natToBytesBE k n).length = k := by
  induction k generalizing n with
  | zero => rfl
  | succ k ih => simp [natToBytesBE, ih]

theorem natToBytesLE_length (k n : Nat) : (natToBytesLE k n).length = k := by
  induction k generalizing n with
  | zero => rfl
  | succ k ih => simp [natToBytesLE, ih]

theorem sha256Digest_length (s : Sha256State) : (sha256Digest s).length = 32 := by
  simp [sha256Digest, natToBytesBE_length]

theorem sha256_length (msg : List Nat) : (sha256 msg).length = 32 := by
  unfold sha256; exact sha256Digest_length _

theorem deriveKey_length (secret salt : List Nat) : (deriveKey secret salt).length = 32 :=
  sha256_length _

theorem diffieHellman_length (pk sk : Nat) : (diffieHellman pk sk).length = 32 :=
  natToBytesLE_length _ _

theorem keystream_length (key iv : List Nat) (n : Nat) : (keystream key iv n).length = n := by
  simp [keystream]

theorem xorBytes_length (a b : List Nat) : (xorBytes a b).length = min a.length b.length := by
  simp [xorBytes]

theorem xorBytes_cancel (a b : List Nat) (h : b.length = a.length) :
    xorBytes (xorBytes a b) b = a := by
  induction a generalizing b with
  | nil => cases b <;> rfl
  | cons x xs ih =>
    cases b with
    | nil => simp at h
    | cons y ys =>
      simp only [List.length_cons, Nat.succ.injEq] at h
      have hxs := ih ys h
      simp only [xorBytes] at hxs ⊢
      simp [Nat.xor_cancel_right, hxs]

theorem gcmTag_length (key iv ct : List Nat) : (gcmTag key iv ct).length = 16 := rfl

theorem flipBit_length (l : List Nat) (i j : Nat) : (flipBit l i j).length = l.length := by
  simp [flipBit]

/-! ## UTF-8 codec lemmas -/

theorem utf8Encode_cons (c : Nat) (s : List Nat) :
    utf8Encode (c :: s) = utf8EncodeChar c ++ utf8Encode s := by
  simp [utf8Encode]

theorem utf8Decode_one (b0 : Nat) (rest : List Nat) (h : b0 < 128) :
    utf8Decode (b0 :: rest) = b0 :: utf8Decode rest := by
  match rest with
  | [] => simp [utf8Decode, h]
  | [x] => simp [utf8Decode, h]
  | [x, y] => simp [utf8Decode, h]
  | x :: y :: z :: t => simp [utf8Decode, h]

theorem utf8Decode_two (b0 b1 : Nat) (rest : List Nat) (h0 : 192 ≤ b0) (h1 : b0 < 224) :
    utf8Decode (b0 :: b1 :: rest) = ((b0 - 192) * 64 + (b1 - 128)) :: utf8Decode rest := by
  have e0 : ¬b0 < 128 := by omega
  have e1 : ¬b0 < 192 := by omega
  match rest with
  | [] => simp [utf8Decode, e0, e1, h1]
  | [x] => simp [utf8Decode, e0, e1, h1]
  | x :: y :: t => simp [utf8Decode, e0, e1, h1]

theorem utf8Decode_three (b0 b1 b2 : Nat) (rest : List Nat) (h0 : 224 ≤ b0) (h1 : b0 < 240) :
    utf8Decode (b0 :: b1 :: b2 :: rest) =
      ((b0 - 224) * 4096 + (b1 - 128) * 64 + (b2 - 128)) :: utf8Decode rest := by
  have e0 : ¬b0 < 128 := by omega
  have e1 : ¬b0 < 192 := by omega
  have e2 : ¬b0 < 224 := by omega
  match rest with
  | [] => simp [utf8Decode, e0, e1, e2, h1]
  | x :: t => simp [utf8Decode, e0, e1, e2, h1]

theorem utf8Decode_four (b0 b1 b2 b3 : Nat) (rest : List Nat) (h0 : 240 ≤ b0) :
    utf8Decode (b0 :: b1 :: b2 :: b3 :: rest) =
      ((b0 - 240) * 262144 + (b1 - 128) * 4096 + (b2 - 128) * 64 + (b3 - 128)) ::
        utf8Decode rest := by
  have e0 : ¬b0 < 128 := by omega
  have e1 : ¬b0 < 192 := by omega
  have e2 : ¬b0 < 224 := by omega
  have e3 : ¬b0 < 240 := by omega
  simp [utf8Decode, e0, e1, e2, e3]

theorem utf8Decode_encodeChar (c : Nat) (hc : ¬(55296 ≤ c ∧ c < 57344)) (rest : List Nat) :
    utf8Decode (utf8EncodeChar c ++ rest) = c :: utf8Decode rest := by
  unfold utf8EncodeChar
  rw [if_neg hc]
  by_cases h1 : c < 128
  · rw [if_pos h1]
    simpa using utf8Decode_one c rest h1
  · rw [if_neg h1]
    by_cases h2 : c < 2048
    · rw [if_pos h2]
      simp only [List.cons_append, List.nil_append]
      rw [utf8Decode_two (192 + c / 64) (128 + c % 64) rest (by omega) (by omega)]
      refine congrArg (fun x => x :: utf8Decode rest) ?_
      omega
    · rw [if_neg h2]
      by_cases h3 : c < 65536
      · rw [if_pos h3]
        simp only [List.cons_append, List.nil_append]
        rw [utf8Decode_three (224 + c / 4096) (128 + c / 64 % 64) (128 + c % 64) rest
          (by omega) (by omega)]
        refine congrArg (fun x => x :: utf8Decode rest) ?_
        omega
      · rw [if_neg h3]
        simp only [List.cons_append, List.nil_append]
        rw [utf8Decode_four (240 + c / 262144) (128 + c / 4096 % 64) (128 + c / 64 % 64)
          (128 + c % 64) rest (by omega)]
        refine congrArg (fun x => x :: utf8Decode rest) ?_
        omega

theorem utf8_roundtrip (s : List Nat) (hs : ∀ c ∈ s, ¬(55296 ≤ c ∧ c < 57344)) :
    utf8Decode (utf8Encode s) = s := by
  induction s with
  | nil => rfl
  | cons c s ih =>
    rw [utf8Encode_cons, utf8Decode_encodeChar c (hs c (by simp)),
      ih (fun d hd => hs d (by simp [hd]))]

theorem utf8EncodeChar_bytes (c : Nat) (hc : c < 1114112) : ∀ b ∈ utf8EncodeChar c, b < 256 := by
  intro b hb
  unfold utf8EncodeChar at hb
  split_ifs at hb with h1 h2 h3 h4 <;> simp at hb <;> omega

theorem utf8Encode_bytes (s : List Nat) (hs : ValidText s) : IsBytes (utf8Encode s) := by
  intro b hb
  simp only [utf8Encode, List.mem_flatten, List.mem_map] at hb
  obtain ⟨l, ⟨c, hc, rfl⟩, hbl⟩ := hb
  exact utf8EncodeChar_bytes c (hs c hc).1 b hbl

theorem utf8EncodeChar_ne_nil (c : Nat) : utf8EncodeChar c ≠ [] := by
  unfold utf8EncodeChar
  split_ifs <;> simp

/-! ## Diffie-Hellman symmetry -/

theorem dhAgree_symm (a b : Nat) : pubOf b ^ a % dhPrime = pubOf a ^ b % dhPrime := by
  unfold pubOf
  conv_lhs => rw [← Nat.pow_mod]
  conv_rhs => rw [← Nat.pow_mod]
  rw [← pow_mul, ← pow_mul, Nat.mul_comm]

theorem diffieHellman_symm (a b : Nat) :
    diffieHellman (pubOf b) a = diffieHellman (pubOf a) b := by
  unfold diffieHellman
  rw [dhAgree_symm]

/-! ## Tamper-detection lemmas for the modelled AEAD -/

theorem xor_two_pow_ne (b j : Nat) : b ^^^ 2 ^ j ≠ b := by
  intro h
  have h1 : b ^^^ (b ^^^ 2 ^ j) = 2 ^ j := Nat.xor_cancel_left b (2 ^ j)
  rw [h, Nat.xor_self] at h1
  exact (Nat.two_pow_pos j).ne' h1.symm

theorem flipBit_ne (l : List Nat) (i j : Nat) (hi : i < l.length) : flipBit l i j ≠ l := by
  intro h
  have hgd := congrArg (fun x => x.getD i 0) h
  simp only [flipBit] at hgd
  rw [List.getD_eq_getElem?_getD, List.getElem?_set_self hi] at hgd
  simp only [Option.getD_some] at hgd
  exact xor_two_pow_ne _ _ hgd

theorem mixByte_flip_ne (l : List Nat) (i j : Nat) (hbytes : IsBytes l) (hi : i < l.length)
    (hj : j < 8) : mixByte (flipBit l i j) ≠ mixByte l := by
  have hgetD : l.getD i 0 = l[i] := List.getD_eq_getElem l 0 hi
  obtain ⟨l₁, l₂, hl, hlen, hset⟩ :=
    @List.exists_of_set Nat i (l.getD i 0 ^^^ 2 ^ j) l hi
  have hflip : flipBit l i j = l₁ ++ (l[i] ^^^ 2 ^ j) :: l₂ := by
    rw [flipBit, ← hgetD, hset]
  have hb : l[i] < 256 := hbytes _ (List.getElem_mem hi)
  have h256 : (256 : Nat) = 2 ^ 8 := by norm_num
  have hb' : l[i] ^^^ 2 ^ j < 256 := by
    rw [h256]
    exact Nat.xor_lt_two_pow (h256 ▸ hb)
      (Nat.lt_of_le_of_lt (Nat.pow_le_pow_right (by omega) (by omega) :
        2 ^ j ≤ 2 ^ 7) (by norm_num))
  intro hEq
  rw [hflip] at hEq
  have hEq' : mixByte (l₁ ++ (l[i] ^^^ 2 ^ j) :: l₂) = mixByte (l₁ ++ l[i] :: l₂) := by
    rw [← hl]; exact hEq
  unfold mixByte at hEq'
  rw [List.sum_append, List.sum_append, List.sum_cons, List.sum_cons] at hEq'
  exact xor_two_pow_ne l[i] j (by omega)

theorem flipBit_append_right (l₁ l₂ : List Nat) (i j : Nat) (h : l₁.length ≤ i) :
    flipBit (l₁ ++ l₂) i j = l₁ ++ flipBit l₂ (i - l₁.length) j := by
  have hg : (l₁ ++ l₂).getD i 0 = l₂.getD (i - l₁.length) 0 := by
    simp [List.getD_eq_getElem?_getD, List.getElem?_append_right h]
  rw [flipBit, flipBit, hg, List.set_append_right _ _ h]

theorem flipBit_append_left (l₁ l₂ : List Nat) (i j : Nat) (h : i < l₁.length) :
    flipBit (l₁ ++ l₂) i j = flipBit l₁ i j ++ l₂ := by
  have hg : (l₁ ++ l₂).getD i 0 = l₁.getD i 0 := by
    simp [List.getD_eq_getElem?_getD, List.getElem?_append_left h]
  rw [flipBit, flipBit, hg, List.set_append_left _ _ h]

theorem gcmTag_parts {k1 i1 c1 k2 i2 c2 : List Nat} (h : gcmTag k1 i1 c1 = gcmTag k2 i2 c2) :
    mixByte c1 = mixByte c2 ∧ mixByte i1 = mixByte i2 ∧ mixByte k1 = mixByte k2 ∧
      c1.length % 256 = c2.length % 256 := by
  simp only [gcmTag, List.cons.injEq, and_true] at h
  exact ⟨h.1, h.2.1, h.2.2.1, h.2.2.2⟩

/-! ## Wire-message structure and the core round trip -/

theorem AliceEncrypt_parts (a bpub : Nat) (msg salt iv : List Nat) :
    AliceEncrypt a bpub msg salt iv =
      salt ++ (iv ++ gcmTag (deriveKey (diffieHellman bpub a) salt) iv
          (xorBytes (utf8Encode msg) (keystream (deriveKey (diffieHellman bpub a) salt) iv
            (utf8Encode msg).length)) ++
        xorBytes (utf8Encode msg) (keystream (deriveKey (diffieHellman bpub a) salt) iv
          (utf8Encode msg).length)) := rfl

theorem parse_iv (iv tag ct : List Nat) (hiv : iv.length = 12) :
    (iv ++ tag ++ ct).take 12 = iv := by
  rw [List.append_assoc, List.take_left' hiv]

theorem parse_tag (iv tag ct : List Nat) (hiv : iv.length = 12) (htag : tag.length = 16) :
    ((iv ++ tag ++ ct).drop 12).take 16 = tag := by
  rw [List.append_assoc, List.drop_left' hiv, List.take_left' htag]

theorem parse_ct (iv tag ct : List Nat) (hiv : iv.length = 12) (htag : tag.length = 16) :
    (iv ++ tag ++ ct).drop 28 = ct := by
  rw [List.drop_left' (by rw [List.length_append, hiv, htag])]

theorem aesDecrypt_aesEncrypt (key msg iv : List Nat) (hkey : key.length = 32)
    (hiv : iv.length = 12) :
    aesDecrypt key (aesEncrypt key msg iv) = Except.ok (utf8Decode (utf8Encode msg)) := by
  unfold aesEncrypt aesDecrypt
  rw [parse_iv _ _ _ hiv, parse_tag _ _ _ hiv (gcmTag_length _ _ _),
    parse_ct _ _ _ hiv (gcmTag_length _ _ _)]
  rw [if_neg (by omega), if_pos rfl]
  have hct : (xorBytes (utf8Encode msg)
      (keystream key iv (utf8Encode msg).length)).length = (utf8Encode msg).length := by
    rw [xorBytes_length, keystream_length, Nat.min_self]
  rw [hct, xorBytes_cancel _ _ (by rw [keystream_length])]

theorem roundtrip_core (a b : Nat) (msg salt iv : List Nat) (hsalt : salt.length = 16)
    (hiv : iv.length = 12) :
    BobDecrypt b (pubOf a) (AliceEncrypt a (pubOf b) msg salt iv) =
      Except.ok (utf8Decode (utf8Encode msg)) := by
  unfold AliceEncrypt BobDecrypt
  rw [List.take_left' hsalt, List.drop_left' hsalt, ← diffieHellman_symm a b]
  exact aesDecrypt_aesEncrypt _ msg iv (deriveKey_length _ _) hiv

theorem AliceEncrypt_length (a bpub : Nat) (msg salt iv : List Nat) (hsalt : salt.length = 16)
    (hiv : iv.length = 12) :
    (AliceEncrypt a bpub msg salt iv).length = 44 + (utf8Encode msg).length := by
  rw [AliceEncrypt_parts]
  simp only [List.length_append, hsalt, hiv, gcmTag_length, xorBytes_length, keystream_length,
    Nat.min_self]
  omega

theorem keystream_bytes (key iv : List Nat) (n : Nat) : IsBytes (keystream key iv n) := by
  intro x hx
  simp only [keystream, List.mem_map] at hx
  obtain ⟨i, _, rfl⟩ := hx
  exact Nat.mod_lt _ (by omega)

theorem xorBytes_bytes (a b : List Nat) (ha : IsBytes a) (hb : IsBytes b) :
    IsBytes (xorBytes a b) := by
  induction a generalizing b with
  | nil => intro x hx; simp [xorBytes] at hx
  | cons v vs ih =>
    intro x hx
    cases b with
    | nil => simp [xorBytes] at hx
    | cons w ws =>
      simp only [xorBytes, List.zipWith_cons_cons, List.mem_cons] at hx
      rcases hx with rfl | hx
      · have h256 : (256 : Nat) = 2 ^ 8 := by norm_num
        rw [h256]
        exact Nat.xor_lt_two_pow (h256 ▸ ha v (by simp)) (h256 ▸ hb w (by simp))
      · exact ih ws (fun y hy => ha y (by simp [hy])) (fun y hy => hb y (by simp [hy])) x hx

theorem BobDecrypt_parts (b apub : Nat) (salt m : List Nat) (hsalt : salt.length = 16) :
    BobDecrypt b apub (salt ++ m) = aesDecrypt (deriveKey (diffieHellman apub b) salt) m := by
  unfold BobDecrypt
  rw [List.take_left' hsalt, List.drop_left' hsalt]

theorem aesDecrypt_bad_tag (key iv tag ct : List Nat) (hkey : key.length = 32)
    (hiv : iv.length = 12) (htag : tag.length = 16) (hbad : tag ≠ gcmTag key iv ct) :
    aesDecrypt key (iv ++ tag ++ ct) = Except.error CryptoError.AuthenticationFailed := by
  unfold aesDecrypt
  rw [parse_iv _ _ _ hiv, parse_tag _ _ _ hiv htag, parse_ct _ _ _ hiv htag]
  rw [if_neg (by omega), if_neg hbad]

theorem tamper_core (a b : Nat) (msg salt iv : List Nat) (i j : Nat)
    (hsalt : salt.length = 16) (hiv : iv.length = 12) (hivB : IsBytes iv)
    (hmsg : ValidText msg) (hj : j < 8) (hlo : 16 ≤ i)
    (hhi : i < (AliceEncrypt a (pubOf b) msg salt iv).length) :
    BobDecrypt b (pubOf a) (flipBit (AliceEncrypt a (pubOf b) msg salt iv) i j) =
      Except.error CryptoError.AuthenticationFailed := by
  have hhi' : i < 44 + (utf8Encode msg).length := by
    rw [← AliceEncrypt_length a (pubOf b) msg salt iv hsalt hiv]; exact hhi
  rw [AliceEncrypt_parts]
  set key := deriveKey (diffieHellman (pubOf b) a) salt with hkey
  set enc := utf8Encode msg with henc
  set ct := xorBytes enc (keystream key iv enc.length) with hct
  set tag := gcmTag key iv ct with htag
  have hkeylen : key.length = 32 := deriveKey_length _ _
  have hctlen : ct.length = enc.length := by
    rw [hct, xorBytes_length, keystream_length, Nat.min_self]
  have htaglen : tag.length = 16 := gcmTag_length _ _ _
  have hctB : IsBytes ct := by
    rw [hct]
    exact xorBytes_bytes _ _ (utf8Encode_bytes msg hmsg) (keystream_bytes _ _ _)
  rw [flipBit_append_right salt _ i j (by omega)]
  rw [BobDecrypt_parts b (pubOf a) salt _ hsalt, ← diffieHellman_symm a b, ← hkey]
  by_cases hA : i - salt.length < 12
  · rw [List.append_assoc iv tag ct,
      flipBit_append_left iv _ _ j (by omega), ← List.append_assoc]
    exact aesDecrypt_bad_tag key _ tag ct hkeylen (by rw [flipBit_length, hiv]) htaglen
      (by
        intro hEq
        rw [htag] at hEq
        exact mixByte_flip_ne iv (i - salt.length) j hivB (by omega) hj
          (gcmTag_parts hEq).2.1.symm)
  · by_cases hB : i - salt.length < 28
    · rw [List.append_assoc iv tag ct,
        flipBit_append_right iv _ _ j (by omega),
        flipBit_append_left tag ct _ j (by omega), ← List.append_assoc]
      exact aesDecrypt_bad_tag key iv _ ct hkeylen hiv (by rw [flipBit_length, htaglen])
        (by
          intro hEq
          exact flipBit_ne tag _ j (by omega) (hEq.trans htag.symm))
    · rw [flipBit_append_right (iv ++ tag) ct _ j (by simp only [List.length_append]; omega)]
      exact aesDecrypt_bad_tag key iv tag _ hkeylen hiv htaglen
        (by
          intro hEq
          rw [htag] at hEq
          exact mixByte_flip_ne ct (i - salt.length - (iv ++ tag).length) j hctB
            (by simp only [List.length_append]; omega) hj (gcmTag_parts hEq).1.symm)

/-! ## Short and truncated wire messages -/

theorem BobDecrypt_short (b apub : Nat) (msg : List Nat) (hlen : msg.length < 44) :
    BobDecrypt b apub msg = Except.error CryptoError.AuthenticationFailed := by
  unfold BobDecrypt aesDecrypt
  rw [if_neg (by rw [deriveKey_length]; omega)]
  rw [if_neg (by
    intro hEq
    have hlenEq := congrArg List.length hEq
    rw [List.length_take, List.length_drop, List.length_drop, gcmTag_length] at hlenEq
    omega)]

theorem BobDecrypt_truncated (a b : Nat) (msg salt iv : List Nat) (hsalt : salt.length = 16)
    (hiv : iv.length = 12) :
    BobDecrypt b (pubOf a) ((AliceEncrypt a (pubOf b) msg salt iv).dropLast) =
      Except.error CryptoError.AuthenticationFailed := by
  by_cases hnil : utf8Encode msg = []
  · apply BobDecrypt_short
    rw [List.length_dropLast, AliceEncrypt_length a (pubOf b) msg salt iv hsalt hiv, hnil]
    simp
  · rw [AliceEncrypt_parts]
    set key := deriveKey (diffieHellman (pubOf b) a) salt with hkey
    set enc := utf8Encode msg with henc
    set ct := xorBytes enc (keystream key iv enc.length) with hct
    set tag := gcmTag key iv ct with htag
    have hctlen : ct.length = enc.length := by
      rw [hct, xorBytes_length, keystream_length, Nat.min_self]
    have hctne : ct ≠ [] := by
      intro h
      exact hnil (List.length_eq_zero.mp (by rw [← hctlen, h]; rfl))
    have htaglen : tag.length = 16 := gcmTag_length _ _ _
    rw [List.dropLast_append_of_ne_nil _ (by simp [hctne]),
      List.dropLast_append_of_ne_nil _ hctne]
    rw [BobDecrypt_parts b (pubOf a) salt _ hsalt, ← diffieHellman_symm a b, ← hkey]
    exact aesDecrypt_bad_tag key iv tag ct.dropLast (deriveKey_length _ _) hiv htaglen
      (by
        intro hEq
        rw [htag] at hEq
        have hmod := (gcmTag_parts hEq).2.2.2
        rw [List.length_dropLast] at hmod
        have hpos : 0 < ct.length := List.length_pos.mpr hctne
        omega)

/-! ## The claims -/

/-- C1: Round-trip — for every pair of valid key pairs (A, B), every plaintext
message and every pair of fresh 16-byte salt and 12-byte nonce draws,
decrypting with BobDecrypt(B.priv, A.pub, w) the wire message w produced by
AliceEncrypt(A.priv, B.pub, P) returns exactly P. -/
theorem C1_roundTrip (A B : KeyPair) (msg salt iv : List Nat) (hA : A.Valid) (hB : B.Valid)
    (hsalt : salt.length = 16) (hiv : iv.length = 12) (hmsg : ValidText msg) :
    BobDecrypt B.priv A.pub (AliceEncrypt A.priv B.pub msg salt iv) = Except.ok msg := by
  rw [show A.pub = pubOf A.priv from hA, show B.pub = pubOf B.priv from hB]
  rw [roundtrip_core A.priv B.priv msg salt iv hsalt hiv]
  rw [utf8_roundtrip msg (fun c hc => (hmsg c hc).2)]

theorem C1_roundTrip_witness :
    BobDecrypt 5 (pubOf 3)
      (AliceEncrypt 3 (pubOf 5) helloWorld (List.replicate 16 1) (List.replicate 12 2)) =
      Except.ok helloWorld :=
  C1_roundTrip ⟨3, pubOf 3⟩ ⟨5, pubOf 5⟩ helloWorld (List.replicate 16 1)
    (List.replicate 12 2) rfl rfl (by decide) (by decide) (by decide)

/-- C2: Wire format — the wire message is Salt(16) followed by Nonce(12)
followed by AuthTag(16) followed by a Ciphertext whose length equals the
plaintext's byte length, so the total length is 44 plus the UTF-8 byte length
of the plaintext (55 bytes for the 11-byte plaintext of the concrete
scenario, established in the witness). -/
theorem C2_wireFormat (a bpub : Nat) (msg salt iv : List Nat) (hsalt : salt.length = 16)
    (hiv : iv.length = 12) :
    ∃ tag ct : List Nat,
      AliceEncrypt a bpub msg salt iv = salt ++ iv ++ tag ++ ct ∧
      tag.length = 16 ∧ ct.length = (utf8Encode msg).length ∧
      (AliceEncrypt a bpub msg salt iv).length = 44 + (utf8Encode msg).length := by
  refine ⟨gcmTag (deriveKey (diffieHellman bpub a) salt) iv
      (xorBytes (utf8Encode msg) (keystream (deriveKey (diffieHellman bpub a) salt) iv
        (utf8Encode msg).length)),
    xorBytes (utf8Encode msg) (keystream (deriveKey (diffieHellman bpub a) salt) iv
      (utf8Encode msg).length),
    ?_, gcmTag_length _ _ _, ?_, AliceEncrypt_length a bpub msg salt iv hsalt hiv⟩
  · rw [AliceEncrypt_parts]
    simp [List.append_assoc]
  · rw [xorBytes_length, keystream_length, Nat.min_self]

theorem C2_wireFormat_witness :
    (utf8Encode helloWorld).length = 11 ∧
    (AliceEncrypt 3 (pubOf 5) helloWorld (List.replicate 16 1)
      (List.replicate 12 2)).length = 55 := by
  obtain ⟨tag, ct, hw, htag, hct, hlen⟩ :=
    C2_wireFormat 3 (pubOf 5) helloWorld (List.replicate 16 1) (List.replicate 12 2) rfl rfl
  exact ⟨by decide, by rw [hlen]; decide⟩

/-- C3: Tamper detection — flipping any single bit of any byte of the Nonce,
AuthTag or Ciphertext field of a wire message produced by AliceEncrypt (the
bytes from offset 16 to the end) makes BobDecrypt with the correct keys fail
with AuthenticationFailed, never returning altered plaintext. -/
theorem C3_tamperDetection (A B : KeyPair) (msg salt iv : List Nat) (i j : Nat)
    (hA : A.Valid) (hB : B.Valid) (hsalt : salt.length = 16) (hiv : iv.length = 12)
    (hivB : IsBytes iv) (hmsg : ValidText msg) (hlo : 16 ≤ i)
    (hhi : i < (AliceEncrypt A.priv B.pub msg salt iv).length) (hj : j < 8) :
    BobDecrypt B.priv A.pub (flipBit (AliceEncrypt A.priv B.pub msg salt iv) i j) =
      Except.error CryptoError.AuthenticationFailed := by
  rw [show B.pub = pubOf B.priv from hB] at hhi ⊢
  rw [show A.pub = pubOf A.priv from hA]
  exact tamper_core A.priv B.priv msg salt iv i j hsalt hiv hivB hmsg hj hlo hhi

theorem C3_tamperDetection_witness :
    BobDecrypt 5 (pubOf 3)
      (flipBit (AliceEncrypt 3 (pubOf 5) helloWorld (List.replicate 16 1)
        (List.replicate 12 2)) 20 0) =
      Except.error CryptoError.AuthenticationFailed :=
  C3_tamperDetection ⟨3, pubOf 3⟩ ⟨5, pubOf 5⟩ helloWorld (List.replicate 16 1)
    (List.replicate 12 2) 20 0 rfl rfl (by decide) (by decide) (by decide) (by decide)
    (by decide) (by decide) (by decide)

/-- C4 counterexample: the code contains no length check and no
MalformedMessage error; on the empty wire message BobDecrypt fails with
AuthenticationFailed (the sliced tag never matches the expected 16-byte tag),
not with MalformedMessage as the claim states. -/
theorem C4_counterexample :
    BobDecrypt 5 (pubOf 3) [] = Except.error CryptoError.AuthenticationFailed ∧
    BobDecrypt 5 (pubOf 3) [] ≠ Except.error CryptoError.MalformedMessage := by
  constructor
  · decide
  · decide

/-- C4 (amended): a wire message shorter than 44 bytes makes BobDecrypt fail,
but with an authentication failure rather than MalformedMessage (the code
never raises MalformedMessage and performs no length check); truncating a
valid wire message by one byte likewise fails with an authentication failure,
never returning a plaintext. -/
theorem C4_malformedRejection (b apub a bp : Nat) (short msgP salt iv : List Nat)
    (hshort : short.length < 44) (hsalt : salt.length = 16) (hiv : iv.length = 12) :
    BobDecrypt b apub short = Except.error CryptoError.AuthenticationFailed ∧
    BobDecrypt bp (pubOf a) ((AliceEncrypt a (pubOf bp) msgP salt iv).dropLast) =
      Except.error CryptoError.AuthenticationFailed :=
  ⟨BobDecrypt_short b apub short hshort, BobDecrypt_truncated a bp msgP salt iv hsalt hiv⟩

theorem C4_malformedRejection_witness :
    BobDecrypt 5 (pubOf 3) (List.replicate 43 0) =
      Except.error CryptoError.AuthenticationFailed ∧
    BobDecrypt 5 (pubOf 3) ((AliceEncrypt 3 (pubOf 5) helloWorld (List.replicate 16 1)
      (List.replicate 12 2)).dropLast) = Except.error CryptoError.AuthenticationFailed :=
  C4_malformedRejection 5 (pubOf 3) 3 5 (List.replicate 43 0) helloWorld
    (List.replicate 16 1) (List.replicate 12 2) (by decide) (by decide) (by decide)

/-- C5: Key derivation — the derived symmetric key is the SHA-256 hash of the
concatenation of shared secret and salt, is exactly 32 bytes long, and the
key BobDecrypt derives from the salt recovered off the wire equals the key
AliceEncrypt derived from its fresh salt. -/
theorem C5_keyDerivation (secret salt : List Nat) (A B : KeyPair) (msg iv : List Nat)
    (hA : A.Valid) (hB : B.Valid) (hsalt : salt.length = 16) (hiv : iv.length = 12) :
    deriveKey secret salt = sha256 (secret ++ salt) ∧
    (deriveKey secret salt).length = 32 ∧
    deriveKey (diffieHellman A.pub B.priv)
        ((AliceEncrypt A.priv B.pub msg salt iv).take 16) =
      deriveKey (diffieHellman B.pub A.priv) salt := by
  refine ⟨rfl, deriveKey_length _ _, ?_⟩
  rw [show A.pub = pubOf A.priv from hA, show B.pub = pubOf B.priv from hB]
  rw [AliceEncrypt_parts, List.take_left' hsalt, ← diffieHellman_symm A.priv B.priv]

theorem C5_keyDerivation_witness :
    deriveKey [7] (List.replicate 16 1) = sha256 ([7] ++ List.replicate 16 1) ∧
    (deriveKey [7] (List.replicate 16 1)).length = 32 ∧
    deriveKey (diffieHellman (pubOf 3) 5)
        ((AliceEncrypt 3 (pubOf 5) helloWorld (List.replicate 16 1)
          (List.replicate 12 2)).take 16) =
      deriveKey (diffieHellman (pubOf 5) 3) (List.replicate 16 1) :=
  C5_keyDerivation [7] (List.replicate 16 1) ⟨3, pubOf 3⟩ ⟨5, pubOf 5⟩ helloWorld
    (List.replicate 12 2) rfl rfl rfl rfl

/-- C6: ECDH symmetry — for every pair of valid key pairs the shared secret
computed from A's private key and B's public key equals the shared secret
computed from B's private key and A's public key. -/
theorem C6_ecdhSymmetry (A B : KeyPair) (hA : A.Valid) (hB : B.Valid) :
    diffieHellman B.pub A.priv = diffieHellman A.pub B.priv := by
  rw [show A.pub = pubOf A.priv from hA, show B.pub = pubOf B.priv from hB]
  exact diffieHellman_symm A.priv B.priv

theorem C6_ecdhSymmetry_witness :
    diffieHellman (pubOf 5) 3 = diffieHellman (pubOf 3) 5 :=
  C6_ecdhSymmetry ⟨3, pubOf 3⟩ ⟨5, pubOf 5⟩ rfl rfl

/-- C7: Non-determinism of ciphertext — two calls of AliceEncrypt on the same
plaintext with the same keys whose independent random draws differ in salt
and nonce produce two different wire messages, differing in the Salt field
and in the Nonce field, and BobDecrypt returns the same plaintext from both. -/
theorem C7_nondeterminism (A B : KeyPair) (msg salt1 iv1 salt2 iv2 : List Nat)
    (hA : A.Valid) (hB : B.Valid) (h1 : salt1.length = 16) (h2 : iv1.length = 12)
    (h3 : salt2.length = 16) (h4 : iv2.length = 12) (hmsg : ValidText msg)
    (hneS : salt1 ≠ salt2) (hneI : iv1 ≠ iv2) :
    AliceEncrypt A.priv B.pub msg salt1 iv1 ≠ AliceEncrypt A.priv B.pub msg salt2 iv2 ∧
    (AliceEncrypt A.priv B.pub msg salt1 iv1).take 16 ≠
      (AliceEncrypt A.priv B.pub msg salt2 iv2).take 16 ∧
    ((AliceEncrypt A.priv B.pub msg salt1 iv1).drop 16).take 12 ≠
      ((AliceEncrypt A.priv B.pub msg salt2 iv2).drop 16).take 12 ∧
    BobDecrypt B.priv A.pub (AliceEncrypt A.priv B.pub msg salt1 iv1) = Except.ok msg ∧
    BobDecrypt B.priv A.pub (AliceEncrypt A.priv B.pub msg salt2 iv2) = Except.ok msg := by
  have hsaltf : ∀ salt iv : List Nat, salt.length = 16 →
      (AliceEncrypt A.priv B.pub msg salt iv).take 16 = salt := by
    intro salt iv hs
    rw [AliceEncrypt_parts, List.take_left' hs]
  have hivf : ∀ salt iv : List Nat, salt.length = 16 → iv.length = 12 →
      ((AliceEncrypt A.priv B.pub msg salt iv).drop 16).take 12 = iv := by
    intro salt iv hs hi
    rw [AliceEncrypt_parts, List.drop_left' hs, List.append_assoc, List.take_left' hi]
  have hrt : ∀ salt iv : List Nat, salt.length = 16 → iv.length = 12 →
      BobDecrypt B.priv A.pub (AliceEncrypt A.priv B.pub msg salt iv) = Except.ok msg := by
    intro salt iv hs hi
    rw [show A.pub = pubOf A.priv from hA, show B.pub = pubOf B.priv from hB]
    rw [roundtrip_core A.priv B.priv msg salt iv hs hi]
    rw [utf8_roundtrip msg (fun c hc => (hmsg c hc).2)]
  refine ⟨?_, ?_, ?_, hrt salt1 iv1 h1 h2, hrt salt2 iv2 h3 h4⟩
  · intro h
    exact hneS (by rw [← hsaltf salt1 iv1 h1, h, hsaltf salt2 iv2 h3])
  · rw [hsaltf salt1 iv1 h1, hsaltf salt2 iv2 h3]
    exact hneS
  · rw [hivf salt1 iv1 h1 h2, hivf salt2 iv2 h3 h4]
    exact hneI

theorem C7_nondeterminism_witness :
    AliceEncrypt 3 (pubOf 5) helloWorld (List.replicate 16 1) (List.replicate 12 2) ≠
      AliceEncrypt 3 (pubOf 5) helloWorld (List.replicate 16 3) (List.replicate 12 4) ∧
    (AliceEncrypt 3 (pubOf 5) helloWorld (List.replicate 16 1) (List.replicate 12 2)).take 16 ≠
      (AliceEncrypt 3 (pubOf 5) helloWorld (List.replicate 16 3) (List.replicate 12 4)).take 16 ∧
    ((AliceEncrypt 3 (pubOf 5) helloWorld (List.replicate 16 1)
        (List.replicate 12 2)).drop 16).take 12 ≠
      ((AliceEncrypt 3 (pubOf 5) helloWorld (List.replicate 16 3)
        (List.replicate 12 4)).drop 16).take 12 ∧
    BobDecrypt 5 (pubOf 3) (AliceEncrypt 3 (pubOf 5) helloWorld (List.replicate 16 1)
      (List.replicate 12 2)) = Except.ok helloWorld ∧
    BobDecrypt 5 (pubOf 3) (AliceEncrypt 3 (pubOf 5) helloWorld (List.replicate 16 3)
      (List.replicate 12 4)) = Except.ok helloWorld :=
  C7_nondeterminism ⟨3, pubOf 3⟩ ⟨5, pubOf 5⟩ helloWorld (List.replicate 16 1)
    (List.replicate 12 2) (List.replicate 16 3) (List.replicate 12 4) rfl rfl
    (by decide) (by decide) (by decide) (by decide) (by decide) (by decide) (by decide)

/-- C8 counterexample: the key-derivation step has no error path at all; on
the zero-length shared secret it does not fail but returns the 32-byte
SHA-256 digest of the bare 16-byte salt (the value below is the standard
SHA-256 of sixteen zero bytes). -/
theorem C8_counterexample :
    deriveKey [] (List.replicate 16 0) =
      [55, 71, 8, 255, 247, 113, 157, 213, 151, 158, 200, 117, 213, 108, 210, 40,
       111, 109, 60, 247, 236, 49, 122, 59, 37, 99, 42, 171, 40, 236, 55, 187] := by
  decide

/-- C8 (amended): the key derivation rejects nothing — for every shared
secret, including the zero-length one, and every salt it succeeds and
produces a 32-byte key. -/
theorem C8_deriveTotal (secret salt : List Nat) : (deriveKey secret salt).length = 32 :=
  deriveKey_length secret salt

/-- C9: Error propagation and atomicity — every error of the AEAD decrypt
step (the only fallible sub-component; key agreement and key derivation are
total) propagates unchanged through BobDecrypt, and BobDecrypt returns a
plaintext only when the AEAD decrypt returned exactly that plaintext with the
parsed tag equal to the genuine tag of the parsed nonce and ciphertext, so no
partial plaintext is ever returned. -/
theorem C9_errorPropagation (b apub : Nat) (msg : List Nat) :
    (∀ e : CryptoError,
      aesDecrypt (deriveKey (diffieHellman apub b) (msg.take 16)) (msg.drop 16) =
          Except.error e →
        BobDecrypt b apub msg = Except.error e) ∧
    (∀ pt : List Nat, BobDecrypt b apub msg = Except.ok pt →
      aesDecrypt (deriveKey (diffieHellman apub b) (msg.take 16)) (msg.drop 16) =
          Except.ok pt ∧
      ((msg.drop 16).drop 12).take 16 =
        gcmTag (deriveKey (diffieHellman apub b) (msg.take 16)) ((msg.drop 16).take 12)
          ((msg.drop 16).drop 28)) := by
  constructor
  · intro e he
    exact he
  · intro pt hok
    refine ⟨hok, ?_⟩
    unfold BobDecrypt aesDecrypt at hok
    unfold_let at hok
    split_ifs at hok with hk ht
    all_goals first
      | exact ht
      | simp at hok

theorem C9_errorPropagation_witness :
    BobDecrypt 5 (pubOf 3) (List.replicate 30 1) =
      Except.error CryptoError.AuthenticationFailed :=
  (C9_errorPropagation 5 (pubOf 3) (List.replicate 30 1)).1
    CryptoError.AuthenticationFailed (by decide)

/-- C10: UTF-8 plaintext interface — AliceEncrypt encodes its message as
UTF-8 and BobDecrypt decodes the decrypted bytes as UTF-8, so the decrypted
result is always the UTF-8 decoding of the UTF-8 encoding of the input;
that round trip is the identity on valid text (no lone surrogates) and is
not the identity on a lone surrogate. -/
theorem C10_utf8Interface (A B : KeyPair) (msg salt iv : List Nat) (hA : A.Valid)
    (hB : B.Valid) (hsalt : salt.length = 16) (hiv : iv.length = 12) :
    BobDecrypt B.priv A.pub (AliceEncrypt A.priv B.pub msg salt iv) =
      Except.ok (utf8Decode (utf8Encode msg)) ∧
    (ValidText msg → utf8Decode (utf8Encode msg) = msg) ∧
    utf8Decode (utf8Encode [55296]) ≠ [55296] := by
  refine ⟨?_, fun hv => utf8_roundtrip msg (fun c hc => (hv c hc).2), by decide⟩
  rw [show A.pub = pubOf A.priv from hA, show B.pub = pubOf B.priv from hB]
  exact roundtrip_core A.priv B.priv msg salt iv hsalt hiv

theorem C10_utf8Interface_witness :
    BobDecrypt 5 (pubOf 3) (AliceEncrypt 3 (pubOf 5) [104, 233] (List.replicate 16 1)
        (List.replicate 12 2)) =
      Except.ok (utf8Decode (utf8Encode [104, 233])) ∧
    (ValidText [104, 233] → utf8Decode (utf8Encode [104, 233]) = [104, 233]) ∧
    utf8Decode (utf8Encode [55296]) ≠ [55296] :=
  C10_utf8Interface ⟨3, pubOf 3⟩ ⟨5, pubOf 5⟩ [104, 233] (List.replicate 16 1)
    (List.replicate 12 2) rfl rfl rfl rfl
